import Mathlib

/-!
Verification of the `rr-mux` request/response multiplexer library.

The development shallowly embeds the library's core components:

* `Muxed` (src/muxed.rs): the two-variant request/response envelope with its
  `req`/`resp` accessors.
* `Mux` (src/mux.rs): the correlation engine.  The Rust struct holds a
  `HashMap<ReqId, OneshotSender<(Resp, Ctx)>>` pending table and an outbound
  mpsc channel.  Here the pending table is an association list from `ReqId`
  to a numeric tag identifying the oneshot channel created by a particular
  `request` call; the outbound channel is the list of tuples pushed so far.
  Two observation fields complete the state: `completed` records, per oneshot
  tag, the `(Resp, Ctx)` pair delivered through that fulfilled oneshot (what
  the suspended requester's `rx.await` yields), and `orphans` records the ids
  logged by the `info!("Response id ... no request pending")` branch of
  `handle_resp`.
* `Mapped` (src/mapped.rs): the schema adapter over an abstract base
  connector, including its `unwrap`-based variant extraction.
* `MockConnector` (src/mock.rs): the expectation-queue test double.

Rust `panic!` / `unwrap` failures are modelled by the distinguished
`RustResult.aborted` outcome, kept separate from the reported-error outcome
`RustResult.err`.
-/

/-- Outcome of a Rust computation that can return `Ok`, return `Err`, or
abort the process via `panic!` / `.unwrap()` on a failed value.  `aborted`
models the panic: it is an outcome distinct from any reported error. -/
inductive RustResult (ε α : Type) where
  | ok : α → RustResult ε α
  | err : ε → RustResult ε α
  | aborted : RustResult ε α
deriving DecidableEq

/-- `Muxed` (src/muxed.rs): a container for either a request or a response
message. -/
inductive Muxed (Req Resp : Type) where
  | Request : Req → Muxed Req Resp
  | Response : Resp → Muxed Req Resp
deriving DecidableEq

/-- `Muxed::req` (src/muxed.rs lines 10-15): fetch the request if the
envelope contains a request, otherwise `None`. -/
def Muxed.req {Req Resp : Type} : Muxed Req Resp → Option Req
  | Muxed.Request rq => some rq
  | _ => none

/-- `Muxed::resp` (src/muxed.rs lines 18-23): fetch the response if the
envelope contains a response, otherwise `None`. -/
def Muxed.resp {Req Resp : Type} : Muxed Req Resp → Option Resp
  | Muxed.Response rs => some rs
  | _ => none

/-! ### Association-list finite map

`std::collections::HashMap` as used by `Mux` (lookup, insert-with-overwrite,
remove), embedded as an association list with extensionally identical
behaviour. -/

/-- Lookup of the first entry with the given key (`HashMap` lookup). -/
def alookup {κ α : Type} [DecidableEq κ] : List (κ × α) → κ → Option α
  | [], _ => none
  | (k, v) :: t, k' => if k = k' then some v else alookup t k'

/-- Removal of every entry with the given key (`HashMap::remove`). -/
def aerase {κ α : Type} [DecidableEq κ] (m : List (κ × α)) (k : κ) : List (κ × α) :=
  m.filter (fun p => decide (p.1 ≠ k))

/-- Key overwrite (`HashMap::insert`): the new binding replaces any previous
binding of the same key. -/
def ainsert {κ α : Type} [DecidableEq κ] (m : List (κ × α)) (k : κ) (v : α) : List (κ × α) :=
  (k, v) :: aerase m k

theorem aerase_cons {κ α : Type} [DecidableEq κ] (p : κ × α) (t : List (κ × α)) (k : κ) :
    aerase (p :: t) k = if p.1 = k then aerase t k else p :: aerase t k := by
  by_cases h : p.1 = k <;> simp [aerase, List.filter_cons, h]

theorem alookup_aerase_self {κ α : Type} [DecidableEq κ] (m : List (κ × α)) (k : κ) :
    alookup (aerase m k) k = none := by
  induction m with
  | nil => rfl
  | cons p t ih =>
    rw [aerase_cons]
    by_cases h : p.1 = k
    · simpa [h] using ih
    · simpa [alookup, h] using ih

theorem alookup_aerase_ne {κ α : Type} [DecidableEq κ] (m : List (κ × α)) (k k' : κ)
    (h : k' ≠ k) : alookup (aerase m k) k' = alookup m k' := by
  induction m with
  | nil => rfl
  | cons p t ih =>
    rcases p with ⟨k₀, v₀⟩
    rw [aerase_cons]
    by_cases hk : k₀ = k
    · rw [if_pos hk, ih]
      have hk₀ : k₀ ≠ k' := by
        rw [hk]
        exact fun hc => h hc.symm
      simp [alookup, hk₀]
    · rw [if_neg hk]
      by_cases hk' : k₀ = k'
      · simp [alookup, hk']
      · simp [alookup, hk']
        exact ih

theorem alookup_ainsert_self {κ α : Type} [DecidableEq κ] (m : List (κ × α)) (k : κ) (v : α) :
    alookup (ainsert m k v) k = some v := by
  simp [ainsert, alookup]

theorem alookup_ainsert_ne {κ α : Type} [DecidableEq κ] (m : List (κ × α)) (k k' : κ) (v : α)
    (h : k' ≠ k) : alookup (ainsert m k v) k' = alookup m k' := by
  have hne : k ≠ k' := fun hc => h hc.symm
  simp [ainsert, alookup, hne]
  exact alookup_aerase_ne m k k' h

theorem alookup_mem {κ α : Type} [DecidableEq κ] (m : List (κ × α)) (k : κ) (v : α)
    (h : alookup m k = some v) : (k, v) ∈ m := by
  induction m with
  | nil => simp [alookup] at h
  | cons p t ih =>
    rcases p with ⟨k₀, v₀⟩
    by_cases hk : k₀ = k
    · simp [alookup, hk] at h
      subst hk
      subst h
      exact List.mem_cons_self _ _
    · simp [alookup, hk] at h
      exact List.mem_cons_of_mem _ (ih h)

theorem alookup_append_of_some {κ α : Type} [DecidableEq κ] (m₁ m₂ : List (κ × α)) (k : κ)
    (v : α) (h : alookup m₁ k = some v) : alookup (m₁ ++ m₂) k = some v := by
  induction m₁ with
  | nil => simp [alookup] at h
  | cons p t ih =>
    by_cases hk : p.1 = k
    · simp [alookup, hk] at h ⊢
      exact h
    · simp [alookup, hk] at h ⊢
      exact ih h

theorem alookup_append_of_none {κ α : Type} [DecidableEq κ] (m₁ m₂ : List (κ × α)) (k : κ)
    (h : alookup m₁ k = none) : alookup (m₁ ++ m₂) k = alookup m₂ k := by
  induction m₁ with
  | nil => rfl
  | cons p t ih =>
    by_cases hk : p.1 = k
    · simp [alookup, hk] at h
    · simp [alookup, hk] at h ⊢
      exact ih h

theorem alookup_eq_none_of_forall {κ α : Type} [DecidableEq κ] (m : List (κ × α)) (k : κ)
    (h : ∀ p ∈ m, p.1 ≠ k) : alookup m k = none := by
  induction m with
  | nil => rfl
  | cons p t ih =>
    have hp : p.1 ≠ k := h p (List.mem_cons_self _ _)
    simp [alookup, hp]
    exact ih fun q hq => h q (List.mem_cons_of_mem _ hq)

theorem mem_aerase {κ α : Type} [DecidableEq κ] (m : List (κ × α)) (k : κ) (p : κ × α)
    (h : p ∈ aerase m k) : p ∈ m ∧ p.1 ≠ k := by
  have := List.of_mem_filter h
  refine ⟨List.mem_of_mem_filter h, ?_⟩
  simpa using this

/-! ### The multiplexer state (src/mux.rs) -/

/-- State of a `Mux` (src/mux.rs lines 25-35) together with its observable
history.  `requests` is the pending table (`HashMap<ReqId, OneshotSender>`),
each sender identified by the numeric tag of the `request` call that created
it.  `outbound` is the traffic pushed onto the internal channel, in order.
`completed` records what each fulfilled oneshot delivered to its suspended
requester; `orphans` records ids logged as having no pending request. -/
structure Mux (ReqId Target Req Resp Ctx : Type) where
  requests : List (ReqId × Nat)
  outbound : List (ReqId × Target × Muxed Req Resp × Ctx)
  completed : List (Nat × Resp × Ctx)
  orphans : List ReqId
deriving DecidableEq

/-- `Mux::new` (src/mux.rs lines 69-81): empty pending table, empty channel. -/
def Mux.empty {ReqId Target Req Resp Ctx : Type} : Mux ReqId Target Req Resp Ctx :=
  ⟨[], [], [], []⟩

/-- The registration and send phase of `Mux::request` (src/mux.rs lines
124-143): create a fresh oneshot channel (modelled by the fresh tag `tag`),
insert its sender into the pending table under `id` (`HashMap::insert`,
silently overwriting any previous entry), and push
`(id, addr, Muxed::Request(req), ctx)` onto the outbound channel.  The caller
then suspends on the oneshot receiver; what that await yields is read off
with `Mux.resolution` at the same tag. -/
def Mux.request {ReqId Target Req Resp Ctx : Type} [DecidableEq ReqId]
    (s : Mux ReqId Target Req Resp Ctx) (tag : Nat) (ctx : Ctx) (id : ReqId)
    (addr : Target) (rq : Req) : Mux ReqId Target Req Resp Ctx :=
  { s with
    requests := ainsert s.requests id tag
    outbound := s.outbound ++ [(id, addr, Muxed.Request rq, ctx)] }

/-- `Mux::respond` (src/mux.rs lines 152-164): push
`(id, addr, Muxed::Response(resp), ctx)` onto the outbound channel. -/
def Mux.respond {ReqId Target Req Resp Ctx : Type}
    (s : Mux ReqId Target Req Resp Ctx) (ctx : Ctx) (id : ReqId) (addr : Target)
    (rs : Resp) : Mux ReqId Target Req Resp Ctx :=
  { s with outbound := s.outbound ++ [(id, addr, Muxed.Response rs, ctx)] }

/-- `Mux::handle_resp` (src/mux.rs lines 101-109): remove the pending entry
for `id`; if present, send `(resp, ctx)` through it (delivering to the
waiting caller); if absent, log the orphan response.  Returns `Ok(())` in
both branches.  (The model keeps every requester awaiting its receiver, so
the oneshot send succeeds; the receiver-gone panic path is modelled
separately by `muxDeliverOutcome`.) -/
def Mux.handle_resp {ReqId Target Req Resp Ctx E : Type} [DecidableEq ReqId]
    (s : Mux ReqId Target Req Resp Ctx) (id : ReqId) (_target : Target)
    (rs : Resp) (ctx : Ctx) : Except E Unit × Mux ReqId Target Req Resp Ctx :=
  match alookup s.requests id with
  | some tag =>
      (Except.ok (),
        { s with
          requests := aerase s.requests id
          completed := s.completed ++ [(tag, rs, ctx)] })
  | none =>
      (Except.ok (), { s with orphans := s.orphans ++ [id] })

/-- `Mux::handle` (src/mux.rs lines 85-98): requests are passed through for
the driver to process; responses are forwarded to `handle_resp` (with `?` on
its result) and `None` is returned. -/
def Mux.handle {ReqId Target Req Resp Ctx E : Type} [DecidableEq ReqId]
    (s : Mux ReqId Target Req Resp Ctx) (id : ReqId) (addr : Target)
    (message : Muxed Req Resp) (ctx : Ctx) :
    Except E (Option (Target × Req × Ctx)) × Mux ReqId Target Req Resp Ctx :=
  match message with
  | Muxed.Request rq => (Except.ok (some (addr, rq, ctx)), s)
  | Muxed.Response rs =>
      match Mux.handle_resp (E := E) s id addr rs ctx with
      | (Except.ok _, s') => (Except.ok none, s')
      | (Except.error e, s') => (Except.error e, s')

/-- What the requester whose `request` call carries oneshot tag `tag`
receives from `rx.await`: the `(Resp, Ctx)` pair delivered through that
oneshot, or `none` while it is still suspended. -/
def Mux.resolution {ReqId Target Req Resp Ctx : Type}
    (s : Mux ReqId Target Req Resp Ctx) (tag : Nat) : Option (Resp × Ctx) :=
  alookup s.completed tag

/-! ### Interleaved call traces on one `Mux` -/

/-- One externally-initiated call on a `Mux`: a `request` by some caller, or
a `handle_resp` fed in by the transport driver. -/
inductive MuxEvent (ReqId Target Req Resp Ctx : Type) where
  | request : Ctx → ReqId → Target → Req → MuxEvent ReqId Target Req Resp Ctx
  | handle_resp : ReqId → Target → Resp → Ctx → MuxEvent ReqId Target Req Resp Ctx
deriving DecidableEq

/-- The id carried by a `request` event. -/
def MuxEvent.requestId {ReqId Target Req Resp Ctx : Type} :
    MuxEvent ReqId Target Req Resp Ctx → Option ReqId
  | MuxEvent.request _ id _ _ => some id
  | _ => none

/-- The id carried by a `handle_resp` event. -/
def MuxEvent.responseId {ReqId Target Req Resp Ctx : Type} :
    MuxEvent ReqId Target Req Resp Ctx → Option ReqId
  | MuxEvent.handle_resp id _ _ _ => some id
  | _ => none

/-- Whether an event carries the given id (in either role). -/
def MuxEvent.touches {ReqId Target Req Resp Ctx : Type}
    (e : MuxEvent ReqId Target Req Resp Ctx) (id : ReqId) : Prop :=
  e.requestId = some id ∨ e.responseId = some id

instance {ReqId Target Req Resp Ctx : Type} [DecidableEq ReqId]
    (e : MuxEvent ReqId Target Req Resp Ctx) (id : ReqId) :
    Decidable (e.touches id) := by
  unfold MuxEvent.touches
  infer_instance

/-- Execute one event.  The event at position `tag` of a trace uses `tag` as
the fresh oneshot tag for a `request` call (each Rust `request` call creates
a brand-new oneshot channel, so tags never repeat). -/
def Mux.step {ReqId Target Req Resp Ctx : Type} [DecidableEq ReqId]
    (tag : Nat) (s : Mux ReqId Target Req Resp Ctx) :
    MuxEvent ReqId Target Req Resp Ctx → Mux ReqId Target Req Resp Ctx
  | MuxEvent.request ctx id addr rq => s.request tag ctx id addr rq
  | MuxEvent.handle_resp id addr rs ctx =>
      (Mux.handle_resp (E := Unit) s id addr rs ctx).2

/-- Execute a trace of events, numbering them from `tag`. -/
def Mux.runFrom {ReqId Target Req Resp Ctx : Type} [DecidableEq ReqId]
    (s : Mux ReqId Target Req Resp Ctx) (tag : Nat) :
    List (MuxEvent ReqId Target Req Resp Ctx) → Mux ReqId Target Req Resp Ctx
  | [] => s
  | e :: es => Mux.runFrom (s.step tag e) (tag + 1) es

/-- Execute a trace of events on a fresh `Mux`. -/
def Mux.run {ReqId Target Req Resp Ctx : Type} [DecidableEq ReqId]
    (es : List (MuxEvent ReqId Target Req Resp Ctx)) : Mux ReqId Target Req Resp Ctx :=
  Mux.runFrom Mux.empty 0 es

/-- Well-formedness of a `Mux` state reached after `n` numbered events: every
oneshot tag in use is one of the first `n` tags, and no tag appears twice
across the pending table and the delivered completions (each `request` call
creates its own oneshot channel). -/
def Mux.WF {ReqId Target Req Resp Ctx : Type}
    (s : Mux ReqId Target Req Resp Ctx) (n : Nat) : Prop :=
  (∀ p ∈ s.requests, p.2 < n) ∧ (∀ p ∈ s.completed, p.1 < n) ∧
    (s.requests.map Prod.snd ++ s.completed.map Prod.fst).Nodup

instance {ReqId Target Req Resp Ctx : Type} [DecidableEq ReqId]
    (s : Mux ReqId Target Req Resp Ctx) (n : Nat) : Decidable (s.WF n) := by
  unfold Mux.WF
  infer_instance

/-! ### Invariant lemmas about traces -/

theorem Mux.WF_mono {ReqId Target Req Resp Ctx : Type}
    (s : Mux ReqId Target Req Resp Ctx) (n m : Nat) (h : s.WF n) (hnm : n ≤ m) :
    s.WF m := by
  refine ⟨fun p hp => lt_of_lt_of_le (h.1 p hp) hnm,
    fun p hp => lt_of_lt_of_le (h.2.1 p hp) hnm, h.2.2⟩

theorem Mux.WF_request {ReqId Target Req Resp Ctx : Type} [DecidableEq ReqId]
    (s : Mux ReqId Target Req Resp Ctx) (n : Nat) (ctx : Ctx) (id : ReqId)
    (addr : Target) (rq : Req) (h : s.WF n) :
    (s.request n ctx id addr rq).WF (n + 1) := by
  obtain ⟨hreq, hcomp, hnd⟩ := h
  refine ⟨?_, fun p hp => Nat.lt_succ_of_lt (hcomp p hp), ?_⟩
  · intro p hp
    rcases List.mem_cons.mp hp with hp | hp
    · rw [hp]
      exact Nat.lt_succ_self n
    · exact Nat.lt_succ_of_lt (hreq p (mem_aerase _ _ _ hp).1)
  · have hsub : ((aerase s.requests id).map Prod.snd ++ s.completed.map Prod.fst).Sublist
        (s.requests.map Prod.snd ++ s.completed.map Prod.fst) :=
      List.Sublist.append_right ((List.filter_sublist _).map Prod.snd) _
    have hnd' := hnd.sublist hsub
    have hfresh : n ∉ (aerase s.requests id).map Prod.snd ++ s.completed.map Prod.fst := by
      intro hmem
      rcases List.mem_append.mp hmem with hmem | hmem
      · rcases List.mem_map.mp hmem with ⟨p, hp, hpn⟩
        exact absurd (hpn ▸ hreq p (mem_aerase _ _ _ hp).1) (lt_irrefl n)
      · rcases List.mem_map.mp hmem with ⟨p, hp, hpn⟩
        exact absurd (hpn ▸ hcomp p hp) (lt_irrefl n)
    simpa [Mux.request, ainsert] using List.Nodup.cons hfresh hnd'

theorem Mux.WF_handle_resp {ReqId Target Req Resp Ctx E : Type} [DecidableEq ReqId]
    (s : Mux ReqId Target Req Resp Ctx) (n : Nat) (id : ReqId) (tgt : Target)
    (rs : Resp) (ctx : Ctx) (h : s.WF n) :
    ((Mux.handle_resp (E := E) s id tgt rs ctx).2).WF n := by
  obtain ⟨hreq, hcomp, hnd⟩ := h
  rcases hl : alookup s.requests id with _ | t
  · refine ⟨?_, ?_, ?_⟩ <;> simp only [Mux.handle_resp, hl]
    · exact hreq
    · exact hcomp
    · exact hnd
  · have hmem : (id, t) ∈ s.requests := alookup_mem _ _ _ hl
    have htA : t ∈ s.requests.map Prod.snd := List.mem_map.mpr ⟨(id, t), hmem, rfl⟩
    obtain ⟨hA, hC, hdisj⟩ := List.nodup_append.mp hnd
    refine ⟨?_, ?_, ?_⟩ <;> simp only [Mux.handle_resp, hl]
    · exact fun p hp => hreq p (mem_aerase _ _ _ hp).1
    · intro p hp
      rcases List.mem_append.mp hp with hp | hp
      · exact hcomp p hp
      · have : p = (t, rs, ctx) := by simpa using hp
        rw [this]
        exact hreq _ hmem
    · have htC : t ∉ s.completed.map Prod.fst := hdisj htA
      have htA' : t ∉ (aerase s.requests id).map Prod.snd := by
        intro hmem'
        rcases List.mem_map.mp hmem' with ⟨p, hp, hpt⟩
        obtain ⟨hpin, hpne⟩ := mem_aerase _ _ _ hp
        have := List.inj_on_of_nodup_map hA hpin hmem (by rw [hpt])
        exact hpne (by rw [this])
      have hnd' : ((aerase s.requests id).map Prod.snd ++ s.completed.map Prod.fst).Nodup :=
        hnd.sublist (List.Sublist.append_right ((List.filter_sublist _).map Prod.snd) _)
      rw [List.map_append, ← List.append_assoc]
      refine List.Nodup.append hnd' (by simp) ?_
      intro a ha hb
      have : a = t := by simpa using hb
      subst this
      exact absurd ha (by simpa using List.not_mem_append htA' htC)

theorem Mux.WF_step {ReqId Target Req Resp Ctx : Type} [DecidableEq ReqId]
    (s : Mux ReqId Target Req Resp Ctx) (n : Nat)
    (e : MuxEvent ReqId Target Req Resp Ctx) (h : s.WF n) :
    (s.step n e).WF (n + 1) := by
  cases e with
  | request ctx id addr rq => exact s.WF_request n ctx id addr rq h
  | handle_resp id addr rs ctx =>
      exact Mux.WF_mono _ n (n + 1) (Mux.WF_handle_resp s n id addr rs ctx h) (Nat.le_succ n)

theorem Mux.WF_runFrom {ReqId Target Req Resp Ctx : Type} [DecidableEq ReqId]
    (es : List (MuxEvent ReqId Target Req Resp Ctx)) :
    ∀ (s : Mux ReqId Target Req Resp Ctx) (n : Nat),
      s.WF n → (Mux.runFrom s n es).WF (n + es.length) := by
  induction es with
  | nil => intro s n h; simpa using h
  | cons e es ih =>
    intro s n h
    have := ih (s.step n e) (n + 1) (s.WF_step n e h)
    rw [Mux.runFrom, List.length_cons,
      (by omega : n + (es.length + 1) = n + 1 + es.length)]
    exact this

theorem Mux.runFrom_append {ReqId Target Req Resp Ctx : Type} [DecidableEq ReqId]
    (l₁ l₂ : List (MuxEvent ReqId Target Req Resp Ctx)) :
    ∀ (s : Mux ReqId Target Req Resp Ctx) (n : Nat),
      Mux.runFrom s n (l₁ ++ l₂) = Mux.runFrom (Mux.runFrom s n l₁) (n + l₁.length) l₂ := by
  induction l₁ with
  | nil => intro s n; simp [Mux.runFrom]
  | cons e l₁ ih =>
    intro s n
    rw [List.cons_append, Mux.runFrom, Mux.runFrom, ih, List.length_cons,
      (by omega : n + (l₁.length + 1) = n + 1 + l₁.length)]

theorem Mux.resolution_runFrom_of_some {ReqId Target Req Resp Ctx : Type} [DecidableEq ReqId] :
    ∀ (es : List (MuxEvent ReqId Target Req Resp Ctx))
      (s : Mux ReqId Target Req Resp Ctx) (n t : Nat) (v : Resp × Ctx),
      alookup s.completed t = some (v.1, v.2) →
      alookup (Mux.runFrom s n es).completed t = some (v.1, v.2)
  | [], s, n, t, v, h => h
  | e :: es, s, n, t, v, h => by
    apply Mux.resolution_runFrom_of_some es (s.step n e) (n + 1) t v
    cases e with
    | request ctx id addr rq => simpa [Mux.step, Mux.request] using h
    | handle_resp id addr rs ctx =>
      rcases hl : alookup s.requests id with _ | tag
      · simpa [Mux.step, Mux.handle_resp, hl] using h
      · simp only [Mux.step, Mux.handle_resp, hl]
        exact alookup_append_of_some _ _ _ _ h

/-- A pending entry survives any stretch of trace whose events never carry
its id: the table binding, the absence of a delivery for its tag, and
well-formedness are all preserved. -/
theorem Mux.runFrom_no_touch {ReqId Target Req Resp Ctx : Type} [DecidableEq ReqId]
    (id : ReqId) (t : Nat) (es : List (MuxEvent ReqId Target Req Resp Ctx)) :
    ∀ (s : Mux ReqId Target Req Resp Ctx) (n : Nat),
      s.WF n → alookup s.requests id = some t → alookup s.completed t = none →
      (∀ e ∈ es, ¬ e.touches id) →
      alookup (Mux.runFrom s n es).requests id = some t ∧
      alookup (Mux.runFrom s n es).completed t = none ∧
      (Mux.runFrom s n es).WF (n + es.length) := by
  induction es with
  | nil =>
    intro s n hwf hpend hcomp _
    exact ⟨hpend, hcomp, by simpa using hwf⟩
  | cons e es ih =>
    intro s n hwf hpend hcomp htouch
    have hwf' := s.WF_step n e hwf
    have hes : ∀ e' ∈ es, ¬ e'.touches id :=
      fun e' he' => htouch e' (List.mem_cons_of_mem _ he')
    have he : ¬ e.touches id := htouch e (List.mem_cons_self _ _)
    have hstep : alookup (s.step n e).requests id = some t ∧
        alookup (s.step n e).completed t = none := by
      cases e with
      | request ctx id' addr rq =>
        have hne : id ≠ id' := by
          intro hc
          exact he (Or.inl (by simp [MuxEvent.requestId, hc]))
        constructor
        · rw [Mux.step, Mux.request]
          simpa using (alookup_ainsert_ne s.requests id' id n hne).trans hpend
        · simpa [Mux.step, Mux.request] using hcomp
      | handle_resp id' addr rs ctx =>
        have hne : id ≠ id' := by
          intro hc
          exact he (Or.inr (by simp [MuxEvent.responseId, hc]))
        rcases hl : alookup s.requests id' with _ | t'
        · constructor
          · simpa [Mux.step, Mux.handle_resp, hl] using hpend
          · simpa [Mux.step, Mux.handle_resp, hl] using hcomp
        · have htt' : t' ≠ t := by
            intro hc
            have hmem := alookup_mem _ _ _ hpend
            have hmem' := alookup_mem _ _ _ hl
            have hA : (s.requests.map Prod.snd).Nodup :=
              (List.nodup_append.mp hwf.2.2).1
            have := List.inj_on_of_nodup_map hA hmem' hmem (by simp [hc])
            exact hne (by injection this with h1 _; exact h1.symm)
          constructor
          · rw [Mux.step]
            simp only [Mux.handle_resp, hl]
            exact (alookup_aerase_ne s.requests id' id hne).trans hpend
          · rw [Mux.step]
            simp only [Mux.handle_resp, hl]
            rw [alookup_append_of_none _ _ _ hcomp]
            simp [alookup, htt']
    have := ih (s.step n e) (n + 1) hwf' hstep.1 hstep.2 hes
    rw [Mux.runFrom, List.length_cons,
      (by omega : n + (es.length + 1) = n + 1 + es.length)]
    exact this

/-- A tag that is out of the pending table, undelivered, and older than every
tag the trace will allocate is never delivered to: the original caller of an
overwritten request stays uncompleted forever. -/
theorem Mux.runFrom_never_completed {ReqId Target Req Resp Ctx : Type} [DecidableEq ReqId]
    (t : Nat) (es : List (MuxEvent ReqId Target Req Resp Ctx)) :
    ∀ (s : Mux ReqId Target Req Resp Ctx) (n : Nat),
      s.WF n → t < n → (∀ p ∈ s.requests, p.2 ≠ t) →
      alookup s.completed t = none →
      alookup (Mux.runFrom s n es).completed t = none := by
  induction es with
  | nil => intro s n _ _ _ hcomp; exact hcomp
  | cons e es ih =>
    intro s n hwf htn hnot hcomp
    have hwf' := s.WF_step n e hwf
    refine ih (s.step n e) (n + 1) hwf' (Nat.lt_succ_of_lt htn) ?_ ?_
    · cases e with
      | request ctx id' addr rq =>
        intro p hp
        rw [Mux.step, Mux.request] at hp
        simp only at hp
        rcases List.mem_cons.mp hp with hp | hp
        · rw [hp]
          exact fun hc => absurd (hc ▸ htn) (lt_irrefl _)
        · exact hnot p (mem_aerase _ _ _ hp).1
      | handle_resp id' addr rs ctx =>
        intro p hp
        rw [Mux.step] at hp
        rcases hl : alookup s.requests id' with _ | t' <;>
          simp only [Mux.handle_resp, hl] at hp
        · exact hnot p hp
        · exact hnot p (mem_aerase _ _ _ hp).1
    · cases e with
      | request ctx id' addr rq => simpa [Mux.step, Mux.request] using hcomp
      | handle_resp id' addr rs ctx =>
        rw [Mux.step]
        rcases hl : alookup s.requests id' with _ | t' <;>
          simp only [Mux.handle_resp, hl]
        · exact hcomp
        · rw [alookup_append_of_none _ _ _ hcomp]
          have : t' ≠ t := hnot _ (alookup_mem _ _ _ hl)
          simp [alookup, this]

/-! ### Claim theorems -/

/-- C7: for every request payload `r` and response payload `s`, the request
accessor on `Muxed::Request(r)` returns `Some(r)` and on `Muxed::Response(s)`
returns `None`; symmetrically the response accessor returns `Some(s)` on
`Response(s)` and `None` on `Request(r)` — never the wrong payload and (being
total functions) never a panic. -/
theorem muxed_accessors_correct {Req Resp : Type} (r : Req) (s : Resp) :
    (Muxed.Request r : Muxed Req Resp).req = some r ∧
    (Muxed.Response s : Muxed Req Resp).req = none ∧
    (Muxed.Response s : Muxed Req Resp).resp = some s ∧
    (Muxed.Request r : Muxed Req Resp).resp = none :=
  ⟨rfl, rfl, rfl, rfl⟩

/-- C9: `Mux::handle` dispatches by variant: a `Request` payload is returned
(with target and context) as a present result with the state untouched, and a
`Response` payload is forwarded to `handle_resp` with an absent result
returned. -/
theorem mux_handle_dispatch {ReqId Target Req Resp Ctx E : Type} [DecidableEq ReqId]
    (s : Mux ReqId Target Req Resp Ctx) (id : ReqId) (tg : Target) (rq : Req)
    (rs : Resp) (c : Ctx) :
    Mux.handle (E := E) s id tg (Muxed.Request rq) c = (Except.ok (some (tg, rq, c)), s) ∧
    Mux.handle (E := E) s id tg (Muxed.Response rs) c
      = (Except.ok none, (Mux.handle_resp (E := E) s id tg rs c).2) := by
  refine ⟨rfl, ?_⟩
  rcases hl : alookup s.requests id with _ | t <;>
    simp [Mux.handle, Mux.handle_resp, hl]

/-- C2: a pending entry is fulfilled at most once.  A `handle_resp` that finds
the entry for `id` removes it and delivers `(resp, ctx)` to the waiting
caller's oneshot; a second `handle_resp` for the same id finds no pending
entry and only records an orphan — the original caller's completions are
unchanged, never a second delivery. -/
theorem mux_at_most_once_delivery {ReqId Target Req Resp Ctx : Type} [DecidableEq ReqId]
    (s : Mux ReqId Target Req Resp Ctx) (id : ReqId) (t : Nat) (tg tg' : Target)
    (rs rs' : Resp) (c c' : Ctx) (h : alookup s.requests id = some t) :
    alookup (Mux.handle_resp (E := Unit) s id tg rs c).2.requests id = none ∧
    (Mux.handle_resp (E := Unit) s id tg rs c).2.completed = s.completed ++ [(t, rs, c)] ∧
    (Mux.handle_resp (E := Unit) (Mux.handle_resp (E := Unit) s id tg rs c).2 id tg' rs' c').2
      = { (Mux.handle_resp (E := Unit) s id tg rs c).2 with
          orphans := (Mux.handle_resp (E := Unit) s id tg rs c).2.orphans ++ [id] } := by
  have hs₁ : (Mux.handle_resp (E := Unit) s id tg rs c).2
      = { s with requests := aerase s.requests id
                 completed := s.completed ++ [(t, rs, c)] } := by
    simp [Mux.handle_resp, h]
  rw [hs₁]
  exact ⟨alookup_aerase_self s.requests id, rfl,
    by simp [Mux.handle_resp, alookup_aerase_self s.requests id]⟩

/-- Witness for C2 at a concrete state: one entry pending for id 10 under
oneshot tag 0; the first `handle_resp` delivers once, the second is an
orphan. -/
theorem mux_at_most_once_delivery_witness :
    alookup (Mux.handle_resp (E := Unit)
        ((Mux.mk [(10, 0)] [] [] [] : Mux Nat Nat Nat Nat Nat)) 10 12 30 50).2.requests 10 = none ∧
    (Mux.handle_resp (E := Unit)
        ((Mux.mk [(10, 0)] [] [] [] : Mux Nat Nat Nat Nat Nat)) 10 12 30 50).2.completed = [] ++ [(0, 30, 50)] ∧
    (Mux.handle_resp (E := Unit) (Mux.handle_resp (E := Unit)
        ((Mux.mk [(10, 0)] [] [] [] : Mux Nat Nat Nat Nat Nat)) 10 12 30 50).2 10 12 31 51).2
      = { (Mux.handle_resp (E := Unit)
            ((Mux.mk [(10, 0)] [] [] [] : Mux Nat Nat Nat Nat Nat)) 10 12 30 50).2 with
          orphans := (Mux.handle_resp (E := Unit)
            ((Mux.mk [(10, 0)] [] [] [] : Mux Nat Nat Nat Nat Nat)) 10 12 30 50).2.orphans ++ [10] } :=
  mux_at_most_once_delivery _ 10 0 12 12 30 31 50 51 (by decide)

/-- C3: `handle_resp` with an id that has no pending entry returns `Ok(())`,
leaves the pending table, the outbound channel and the delivered completions
unchanged (it only records the orphan), and a subsequent unrelated
request/response pair on the same `Mux` still correlates: a fresh request
under `id'` with fresh oneshot tag `n` resolves to exactly the pair fed to
`handle_resp` for `id'`. -/
theorem mux_orphan_tolerance {ReqId Target Req Resp Ctx E : Type} [DecidableEq ReqId]
    (s : Mux ReqId Target Req Resp Ctx) (id id' : ReqId) (tg tg' tg'' : Target)
    (rs rs' : Resp) (c c' c'' : Ctx) (rq' : Req) (n : Nat)
    (h : alookup s.requests id = none) (hwf : s.WF n) :
    (Mux.handle_resp (E := E) s id tg rs c).1 = Except.ok () ∧
    (Mux.handle_resp (E := E) s id tg rs c).2.requests = s.requests ∧
    (Mux.handle_resp (E := E) s id tg rs c).2.outbound = s.outbound ∧
    (Mux.handle_resp (E := E) s id tg rs c).2.completed = s.completed ∧
    (Mux.handle_resp (E := E) s id tg rs c).2.orphans = s.orphans ++ [id] ∧
    (Mux.handle_resp (E := Unit)
        (((Mux.handle_resp (E := E) s id tg rs c).2).request n c' id' tg' rq')
        id' tg'' rs' c'').2.resolution n = some (rs', c'') := by
  have hs₁ : Mux.handle_resp (E := E) s id tg rs c
      = (Except.ok (), { s with orphans := s.orphans ++ [id] }) := by
    simp [Mux.handle_resp, h]
  rw [hs₁]
  refine ⟨rfl, rfl, rfl, rfl, rfl, ?_⟩
  have hins : alookup (ainsert s.requests id' n) id' = some n :=
    alookup_ainsert_self s.requests id' n
  have hnone : alookup s.completed n = none :=
    alookup_eq_none_of_forall _ _ fun p hp => Nat.ne_of_lt (hwf.2.1 p hp)
  simp only [Mux.request, Mux.handle_resp, Mux.resolution, hins]
  rw [alookup_append_of_none _ _ _ hnone]
  simp [alookup]

/-- Witness for C3 at a concrete state: id 10 has no pending entry (only id 7
is pending under tag 0); the orphan is tolerated and a later pair for id 11
under tag 1 correlates. -/
theorem mux_orphan_tolerance_witness :
    (Mux.handle_resp (E := Unit)
        ((Mux.mk [(7, 0)] [] [] [] : Mux Nat Nat Nat Nat Nat)) 10 12 30 50).1 = Except.ok () ∧
    (Mux.handle_resp (E := Unit)
        ((Mux.mk [(7, 0)] [] [] [] : Mux Nat Nat Nat Nat Nat)) 10 12 30 50).2.requests = [(7, 0)] ∧
    (Mux.handle_resp (E := Unit)
        ((Mux.mk [(7, 0)] [] [] [] : Mux Nat Nat Nat Nat Nat)) 10 12 30 50).2.outbound = [] ∧
    (Mux.handle_resp (E := Unit)
        ((Mux.mk [(7, 0)] [] [] [] : Mux Nat Nat Nat Nat Nat)) 10 12 30 50).2.completed = [] ∧
    (Mux.handle_resp (E := Unit)
        ((Mux.mk [(7, 0)] [] [] [] : Mux Nat Nat Nat Nat Nat)) 10 12 30 50).2.orphans = [] ++ [10] ∧
    (Mux.handle_resp (E := Unit)
        (((Mux.handle_resp (E := Unit)
            ((Mux.mk [(7, 0)] [] [] [] : Mux Nat Nat Nat Nat Nat)) 10 12 30 50).2).request 1 51 11 13 21)
        11 13 31 52).2.resolution 1 = some (31, 52) :=
  mux_orphan_tolerance _ 10 11 12 13 13 30 31 50 51 52 21 1 (by decide) (by decide)

/-- C6: calling `Mux::request` with an identifier that already has a pending
entry silently overwrites the old entry with the new completion handle
(`HashMap::insert`), orphaning the original caller: a later `handle_resp` for
that id delivers only to the newer oneshot (tag `n`), and the first caller's
oneshot (tag `t`) is never delivered to, over any continuation of the trace. -/
theorem mux_duplicate_id_overwrites {ReqId Target Req Resp Ctx : Type} [DecidableEq ReqId]
    (s : Mux ReqId Target Req Resp Ctx) (n t : Nat) (id : ReqId) (c c' : Ctx)
    (tg tg' : Target) (rq : Req) (rs : Resp)
    (es : List (MuxEvent ReqId Target Req Resp Ctx))
    (hwf : s.WF n) (h : alookup s.requests id = some t) :
    alookup (s.request n c id tg rq).requests id = some n ∧
    (Mux.handle_resp (E := Unit) (s.request n c id tg rq) id tg' rs c').2.resolution n
      = some (rs, c') ∧
    (Mux.runFrom (Mux.handle_resp (E := Unit) (s.request n c id tg rq) id tg' rs c').2
        (n + 1) es).resolution t = none := by
  have htn : t < n := hwf.1 (id, t) (alookup_mem _ _ _ h)
  have hmem : (id, t) ∈ s.requests := alookup_mem _ _ _ h
  have hA : (s.requests.map Prod.snd).Nodup := (List.nodup_append.mp hwf.2.2).1
  have hins : alookup (s.request n c id tg rq).requests id = some n := by
    rw [Mux.request]
    exact alookup_ainsert_self s.requests id n
  have hcompn : alookup s.completed n = none :=
    alookup_eq_none_of_forall _ _ fun p hp => Nat.ne_of_lt (hwf.2.1 p hp)
  have hs₂ : (Mux.handle_resp (E := Unit) (s.request n c id tg rq) id tg' rs c').2
      = { s with requests := aerase (ainsert s.requests id n) id
                 outbound := s.outbound ++ [(id, tg, Muxed.Request rq, c)]
                 completed := s.completed ++ [(n, rs, c')] } := by
    rw [Mux.handle_resp, hins]
    simp [Mux.request, Mux.handle_resp]
  refine ⟨hins, ?_, ?_⟩
  · rw [hs₂, Mux.resolution]
    simp only
    rw [alookup_append_of_none _ _ _ hcompn]
    simp [alookup]
  · have hwf₂ : ((Mux.handle_resp (E := Unit) (s.request n c id tg rq) id tg' rs c').2).WF
        (n + 1) :=
      Mux.WF_handle_resp _ (n + 1) id tg' rs c' (s.WF_request n c id tg rq hwf)
    refine Mux.runFrom_never_completed t es _ (n + 1) hwf₂ (Nat.lt_succ_of_lt htn) ?_ ?_
    · intro p hp
      rw [hs₂] at hp
      simp only at hp
      obtain ⟨hp₁, hpne⟩ := mem_aerase _ _ _ hp
      rcases List.mem_cons.mp hp₁ with hp₂ | hp₂
      · exact absurd (by rw [hp₂]) hpne
      · intro hc
        have hp₃ := (mem_aerase _ _ _ hp₂).1
        have := List.inj_on_of_nodup_map hA hp₃ hmem (by rw [hc])
        exact hpne (by rw [this])
    · rw [hs₂]
      simp only [Mux.resolution]
      have hctags : alookup s.completed t = none := by
        rcases hc : alookup s.completed t with _ | v
        · rfl
        · have hmemC : (t, v) ∈ s.completed := alookup_mem _ _ _ hc
          have htA : t ∈ s.requests.map Prod.snd := List.mem_map.mpr ⟨(id, t), hmem, rfl⟩
          have htC : t ∈ s.completed.map Prod.fst := List.mem_map.mpr ⟨(t, v), hmemC, rfl⟩
          exact absurd htC ((List.nodup_append.mp hwf.2.2).2.2 htA)
      rw [alookup_append_of_none _ _ _ hctags]
      simp only [alookup, if_neg (Nat.ne_of_lt htn).symm]

/-- Witness for C6 at a concrete state: id 10 pending under tag 0, a second
`request` with id 10 gets tag 1; the `handle_resp` for id 10 delivers to tag
1 and tag 0 is never delivered to, even across a further trace. -/
theorem mux_duplicate_id_overwrites_witness :
    alookup (((Mux.mk [(10, 0)] [] [] [] : Mux Nat Nat Nat Nat Nat)).request 1 40 10 12 20).requests 10 = some 1 ∧
    (Mux.handle_resp (E := Unit)
        (((Mux.mk [(10, 0)] [] [] [] : Mux Nat Nat Nat Nat Nat)).request 1 40 10 12 20) 10 12 30 50).2.resolution 1
      = some (30, 50) ∧
    (Mux.runFrom (Mux.handle_resp (E := Unit)
        (((Mux.mk [(10, 0)] [] [] [] : Mux Nat Nat Nat Nat Nat)).request 1 40 10 12 20) 10 12 30 50).2
        2 [MuxEvent.handle_resp 10 12 99 98]).resolution 0 = none :=
  mux_duplicate_id_overwrites _ 1 0 10 40 50 12 12 20 30
    [MuxEvent.handle_resp 10 12 99 98] (by decide) (by decide)

/-- C1: correlation correctness.  For every trace of interleaved `request`
and `handle_resp` calls on one `Mux` in which the ids of the `request` calls
are pairwise distinct and the ids of the `handle_resp` calls are pairwise
distinct, the `request` call at position `p` resolves with exactly the
`(resp, ctx)` pair passed to the `handle_resp` call carrying the same id,
regardless of the interleaving of the events with unrelated ids. -/
theorem mux_correlation_correctness {ReqId Target Req Resp Ctx : Type} [DecidableEq ReqId]
    (es : List (MuxEvent ReqId Target Req Resp Ctx)) (p q : Nat)
    (c c' : Ctx) (id : ReqId) (tg tg' : Target) (rq : Req) (rs : Resp)
    (hp : es[p]? = some (MuxEvent.request c id tg rq))
    (hq : es[q]? = some (MuxEvent.handle_resp id tg' rs c'))
    (hpq : p < q)
    (hreq : ∀ i, i < es.length → ∀ j, j < es.length → i ≠ j →
      es[i]?.bind MuxEvent.requestId = es[j]?.bind MuxEvent.requestId →
      es[i]?.bind MuxEvent.requestId = none)
    (hresp : ∀ i, i < es.length → ∀ j, j < es.length → i ≠ j →
      es[i]?.bind MuxEvent.responseId = es[j]?.bind MuxEvent.responseId →
      es[i]?.bind MuxEvent.responseId = none) :
    (Mux.run es).resolution p = some (rs, c') := by
  obtain ⟨hqlt, hqget⟩ := List.getElem?_eq_some.mp hq
  obtain ⟨hplt, hpget⟩ := List.getElem?_eq_some.mp hp
  have hAlen : (es.take p).length = p := by
    rw [List.length_take]
    omega
  have hDlen : ((es.drop (p + 1)).take (q - p - 1)).length = q - p - 1 := by
    rw [List.length_take, List.length_drop]
    omega
  have hsplit : es = es.take p ++ MuxEvent.request c id tg rq ::
      ((es.drop (p + 1)).take (q - p - 1) ++
        MuxEvent.handle_resp id tg' rs c' :: es.drop (q + 1)) := by
    conv_lhs => rw [← List.take_append_drop p es]
    congr 1
    rw [List.drop_eq_getElem_cons hplt, hpget]
    congr 1
    conv_lhs => rw [← List.take_append_drop (q - p - 1) (es.drop (p + 1))]
    congr 1
    rw [List.drop_drop, (by omega : p + 1 + (q - p - 1) = q),
      List.drop_eq_getElem_cons hqlt, hqget]
  have htouch : ∀ e ∈ (es.drop (p + 1)).take (q - p - 1), ¬ e.touches id := by
    intro e he
    obtain ⟨k, hk⟩ := List.mem_iff_getElem?.mp he
    have hklen : k < q - p - 1 := by
      by_contra hge
      rw [List.getElem?_take, if_neg hge] at hk
      exact Option.noConfusion hk
    have hkes : es[p + 1 + k]? = some e := by
      rw [List.getElem?_take, if_pos hklen, List.getElem?_drop] at hk
      exact hk
    intro htch
    rcases htch with hr | hr
    · have h1 : es[p + 1 + k]?.bind MuxEvent.requestId = some id := by
        rw [hkes]
        simpa using hr
      have h2 : es[p]?.bind MuxEvent.requestId = some id := by
        rw [hp]
        rfl
      have h3 := hreq (p + 1 + k) (by omega) p (by omega) (by omega) (h1.trans h2.symm)
      rw [h1] at h3
      exact Option.noConfusion h3
    · have h1 : es[p + 1 + k]?.bind MuxEvent.responseId = some id := by
        rw [hkes]
        simpa using hr
      have h2 : es[q]?.bind MuxEvent.responseId = some id := by
        rw [hq]
        rfl
      have h3 := hresp (p + 1 + k) (by omega) q (by omega) (by omega) (h1.trans h2.symm)
      rw [h1] at h3
      exact Option.noConfusion h3
  have hwf₀ : (Mux.runFrom Mux.empty 0 (es.take p)).WF p := by
    have h0 : (Mux.empty : Mux ReqId Target Req Resp Ctx).WF 0 :=
      ⟨by simp [Mux.empty], by simp [Mux.empty], by simp [Mux.empty]⟩
    have h1 := Mux.WF_runFrom (es.take p) Mux.empty 0 h0
    rwa [hAlen, Nat.zero_add] at h1
  rw [Mux.run]
  conv_lhs => rw [hsplit]
  rw [Mux.runFrom_append, hAlen, Nat.zero_add, Mux.runFrom, Mux.runFrom_append, hDlen,
    (by omega : p + 1 + (q - p - 1) = q), Mux.runFrom]
  simp only [Mux.step]
  have h₁ : alookup ((Mux.runFrom Mux.empty 0 (es.take p)).request p c id tg rq).requests id
      = some p := by
    rw [Mux.request]
    exact alookup_ainsert_self _ id p
  have h₂ : alookup ((Mux.runFrom Mux.empty 0 (es.take p)).request p c id tg rq).completed p
      = none := by
    rw [Mux.request]
    exact alookup_eq_none_of_forall _ _ fun pr hpr => Nat.ne_of_lt (hwf₀.2.1 pr hpr)
  have hwf₁ := (Mux.runFrom Mux.empty 0 (es.take p)).WF_request p c id tg rq hwf₀
  obtain ⟨hr₂, hc₂, _⟩ := Mux.runFrom_no_touch id p ((es.drop (p + 1)).take (q - p - 1))
    ((Mux.runFrom Mux.empty 0 (es.take p)).request p c id tg rq) (p + 1)
    hwf₁ h₁ h₂ htouch
  have hres : alookup (Mux.handle_resp (E := Unit)
      (Mux.runFrom ((Mux.runFrom Mux.empty 0 (es.take p)).request p c id tg rq)
        (p + 1) ((es.drop (p + 1)).take (q - p - 1)))
      id tg' rs c').2.completed p = some (rs, c') := by
    simp only [Mux.handle_resp, hr₂]
    rw [alookup_append_of_none _ _ _ hc₂]
    simp [alookup]
  rw [Mux.resolution]
  exact Mux.resolution_runFrom_of_some (es.drop (q + 1)) _ (q + 1) p (rs, c') hres

/-- Witness for C1: Scenario A.  After `request(ctx=40, id=10, target=12,
req=20)` and `handle_resp(id=10, target=12, resp=30, ctx=50)` the request
call resolves to exactly `(30, 50)`. -/
theorem mux_correlation_correctness_witness :
    (Mux.run ([MuxEvent.request 40 10 12 20, MuxEvent.handle_resp 10 12 30 50]
      : List (MuxEvent Nat Nat Nat Nat Nat))).resolution 0 = some (30, 50) :=
  mux_correlation_correctness _ 0 1 40 50 10 12 12 20 30 rfl rfl (by decide)
    (by decide) (by decide)

/-! ### The schema adapter (src/mapped.rs) -/

/-- `Mapper` (src/mapped.rs lines 15-21): a pair of total translation
functions between the mapped envelope and the original (base) envelope. -/
structure Mapper (BReq BResp MReq MResp : Type) where
  outgoing : Muxed MReq MResp → Muxed BReq BResp
  incoming : Muxed BReq BResp → Muxed MReq MResp

/-- `Mapped::request` (src/mapped.rs lines 86-93): wrap the mapped request
in `Muxed::Request`, translate it with `mapper.outgoing`, extract the base
request with `.req().unwrap()` (panicking if the mapper produced the wrong
variant), delegate to the base connector's `request` with unchanged ctx, id
and target, then translate the base response with `mapper.incoming` and
extract it with `.resp().unwrap()`.  The base connector is an opaque
function; the adapter keeps no state of its own. -/
def Mapped.request {BReq BResp MReq MResp ReqId Target E Ctx : Type}
    (mapper : Mapper BReq BResp MReq MResp)
    (conn : Ctx → ReqId → Target → BReq → RustResult E BResp)
    (ctx : Ctx) (reqId : ReqId) (target : Target) (rq : MReq) : RustResult E MResp :=
  match (mapper.outgoing (Muxed.Request rq)).req with
  | none => RustResult.aborted
  | some breq =>
    match conn ctx reqId target breq with
    | RustResult.ok bresp =>
        match (mapper.incoming (Muxed.Response bresp)).resp with
        | none => RustResult.aborted
        | some mresp => RustResult.ok mresp
    | RustResult.err e => RustResult.err e
    | RustResult.aborted => RustResult.aborted

/-- `Mapped::respond` (src/mapped.rs lines 95-98): wrap the mapped response
in `Muxed::Response`, translate with `mapper.outgoing`, extract with
`.resp().unwrap()` (panicking on the wrong variant) and delegate to the base
connector's `respond`. -/
def Mapped.respond {BReq BResp MReq MResp ReqId Target E Ctx : Type}
    (mapper : Mapper BReq BResp MReq MResp)
    (conn : Ctx → ReqId → Target → BResp → RustResult E Unit)
    (ctx : Ctx) (reqId : ReqId) (target : Target) (rs : MResp) : RustResult E Unit :=
  match (mapper.outgoing (Muxed.Response rs)).resp with
  | none => RustResult.aborted
  | some bresp => conn ctx reqId target bresp

/-- Modelled from the spec (§4.4): the composition that `Mapped::request` is
claimed to equal — translate the request with the outgoing mapping, delegate
to the base connector with unchanged ctx, id and target, translate the
returned base response with the incoming mapping. -/
def mappedRequestSpec {BReq BResp MReq MResp ReqId Target E Ctx : Type}
    (outgoingReq : MReq → BReq) (incomingResp : BResp → MResp)
    (conn : Ctx → ReqId → Target → BReq → RustResult E BResp)
    (ctx : Ctx) (reqId : ReqId) (target : Target) (rq : MReq) : RustResult E MResp :=
  match conn ctx reqId target (outgoingReq rq) with
  | RustResult.ok bresp => RustResult.ok (incomingResp bresp)
  | RustResult.err e => RustResult.err e
  | RustResult.aborted => RustResult.aborted

/-- Modelled from the spec (§4.4): the composition that `Mapped::respond` is
claimed to equal — translate only the outgoing direction, then delegate. -/
def mappedRespondSpec {BResp MResp ReqId Target E Ctx : Type}
    (outgoingResp : MResp → BResp)
    (conn : Ctx → ReqId → Target → BResp → RustResult E Unit)
    (ctx : Ctx) (reqId : ReqId) (target : Target) (rs : MResp) : RustResult E Unit :=
  conn ctx reqId target (outgoingResp rs)

/-- C8: for a mapper whose `outgoing` sends `Request` to `Request` (by `f`)
and `Response` to `Response` (by `h`), and whose `incoming` sends `Response`
to `Response` (by `g`), `Mapped::request` is exactly the spec composition
(outgoing map, delegate with unchanged ctx/id/target, incoming map) and
`Mapped::respond` is exactly the outgoing-only composition.  Both adapter
operations are pure functions of the base connector: they perform no
correlation or state change of their own. -/
theorem mapped_request_composition {BReq BResp MReq MResp ReqId Target E Ctx : Type}
    (mapper : Mapper BReq BResp MReq MResp) (f : MReq → BReq) (g : BResp → MResp)
    (h : MResp → BResp)
    (conn : Ctx → ReqId → Target → BReq → RustResult E BResp)
    (connR : Ctx → ReqId → Target → BResp → RustResult E Unit)
    (ctx : Ctx) (reqId : ReqId) (target : Target) (rq : MReq) (rs : MResp)
    (hout : ∀ r, mapper.outgoing (Muxed.Request r) = Muxed.Request (f r))
    (hin : ∀ b, mapper.incoming (Muxed.Response b) = Muxed.Response (g b))
    (hout' : ∀ r, mapper.outgoing (Muxed.Response r) = Muxed.Response (h r)) :
    Mapped.request mapper conn ctx reqId target rq
      = mappedRequestSpec f g conn ctx reqId target rq ∧
    Mapped.respond mapper connR ctx reqId target rs
      = mappedRespondSpec h connR ctx reqId target rs := by
  constructor
  · rw [Mapped.request, hout rq]
    rcases hc : conn ctx reqId target (f rq) with bresp | e | _ <;>
      simp [mappedRequestSpec, Muxed.req, Muxed.resp, hc, hin]
  · rw [Mapped.respond, hout' rs]
    simp [mappedRespondSpec, Muxed.resp]

/-- Witness for C8 with a concrete well-variant mapper (the numeric mapper of
the repository's own test, shifted through a base connector returning 1). -/
theorem mapped_request_composition_witness :
    Mapped.request
        ((Mapper.mk
          (fun m => match m with
            | Muxed.Request r => Muxed.Request r
            | Muxed.Response r => Muxed.Response r)
          (fun m => match m with
            | Muxed.Request r => Muxed.Request r
            | Muxed.Response r => Muxed.Response r) : Mapper Nat Nat Nat Nat))
        (fun _ _ _ _ => RustResult.ok (ε := Unit) 1) (0 : Nat) (0 : Nat) (1 : Nat) 0
      = mappedRequestSpec (fun r => r) (fun b => b)
        (fun _ _ _ _ => RustResult.ok (ε := Unit) 1) 0 0 1 0 ∧
    Mapped.respond
        ((Mapper.mk
          (fun m => match m with
            | Muxed.Request r => Muxed.Request r
            | Muxed.Response r => Muxed.Response r)
          (fun m => match m with
            | Muxed.Request r => Muxed.Request r
            | Muxed.Response r => Muxed.Response r) : Mapper Nat Nat Nat Nat))
        (fun _ _ _ _ => RustResult.ok (ε := Unit) ()) (0 : Nat) (0 : Nat) (1 : Nat) 2
      = mappedRespondSpec (fun r => r)
        (fun _ _ _ _ => RustResult.ok (ε := Unit) ()) 0 0 1 2 :=
  mapped_request_composition _ (fun r => r) (fun b => b) (fun r => r) _ _ 0 0 1 0 2
    (fun _ => rfl) (fun _ => rfl) (fun _ => rfl)

/-- The swapping mapper of C5's failing input: `outgoing` maps a `Request`
into a `Response` variant and a `Response` into a `Request` variant. -/
def swappingMapper : Mapper Nat Nat Nat Nat :=
  Mapper.mk
    (fun m => match m with
      | Muxed.Request r => Muxed.Response r
      | Muxed.Response r => Muxed.Request r)
    (fun m => match m with
      | Muxed.Request r => Muxed.Response r
      | Muxed.Response r => Muxed.Request r)

/-- C5 (evaluation at the failing input): when the mapper maps the `Request`
variant to a `Response` variant (and vice versa), `Mapped::request` and
`Mapped::respond` hit `.unwrap()` on `None` and abort the process
(`RustResult.aborted`), instead of failing with a reported error
(`RustResult.err`) as the claim requires. -/
theorem mapped_mismatched_variant_aborts :
    Mapped.request swappingMapper (fun _ _ _ _ => RustResult.ok (ε := Unit) (1 : Nat))
        (0 : Nat) (0 : Nat) (1 : Nat) (0 : Nat) = RustResult.aborted ∧
    Mapped.respond swappingMapper (fun _ _ _ _ => RustResult.ok (ε := Unit) ())
        (0 : Nat) (0 : Nat) (1 : Nat) (2 : Nat) = RustResult.aborted ∧
    (∀ e : Unit,
      Mapped.request swappingMapper (fun _ _ _ _ => RustResult.ok (ε := Unit) (1 : Nat))
        (0 : Nat) (0 : Nat) (1 : Nat) (0 : Nat) ≠ RustResult.err e) :=
  ⟨rfl, rfl, fun _ hcontra => RustResult.noConfusion hcontra⟩

/-! ### Channel-failure paths of `Mux::request` / `Mux::respond` / delivery
(src/mux.rs) -/

/-- The send-and-await skeleton of `Mux::request` (src/mux.rs lines 137-149):
`sender.send(..)` is matched with `Ok => ()` and `Err(e) => panic!(e)`
(`sendOk = false` models the outbound channel being closed), then `rx.await`
is matched with `Ok(r) => r` and `Err(e) => panic!(e)` (`rxResult = none`
models the oneshot sender side being gone); on success `Ok(res)` is
returned. -/
def muxRequestOutcome {Resp Ctx E : Type} (sendOk : Bool)
    (rxResult : Option (Resp × Ctx)) : RustResult E (Resp × Ctx) :=
  match sendOk with
  | false => RustResult.aborted
  | true =>
    match rxResult with
    | none => RustResult.aborted
    | some r => RustResult.ok r

/-- The send skeleton of `Mux::respond` (src/mux.rs lines 156-163):
`sender.send(..)` matched with `Ok => ()` and `Err(e) => panic!(e)`, then
`Ok(())`. -/
def muxRespondOutcome {E : Type} (sendOk : Bool) : RustResult E Unit :=
  match sendOk with
  | false => RustResult.aborted
  | true => RustResult.ok ()

/-- The delivery step of `Mux::handle_resp` (src/mux.rs line 104):
`ch.send((resp, ctx)).unwrap()` — the oneshot send fails when the waiting
receiver is gone, and `.unwrap()` panics on that failure. -/
def muxDeliverOutcome {Resp Ctx E : Type} (receiverAlive : Bool)
    (v : Resp × Ctx) : RustResult E (Resp × Ctx) :=
  match receiverAlive with
  | false => RustResult.aborted
  | true => RustResult.ok v

/-- C4 (evaluation at the failing inputs): when the outbound channel is
closed during a send in `Mux::request` or `Mux::respond`, when the oneshot
receiver's sender side is gone during the await, or when a pending completion
cannot deliver because the waiting side is gone, the code aborts the process
(`panic!` / `.unwrap()`, modelled by `RustResult.aborted`) — it does not
return a reported error (`RustResult.err`) to the affected caller as the
claim requires. -/
theorem mux_channel_closed_aborts :
    (muxRequestOutcome false none : RustResult Unit (Nat × Nat))
      = RustResult.aborted ∧
    (muxRequestOutcome true none : RustResult Unit (Nat × Nat))
      = RustResult.aborted ∧
    (muxRespondOutcome false : RustResult Unit Unit) = RustResult.aborted ∧
    (muxDeliverOutcome false ((30 : Nat), (50 : Nat)) : RustResult Unit (Nat × Nat))
      = RustResult.aborted ∧
    (∀ e : Unit, (muxRequestOutcome false none : RustResult Unit (Nat × Nat))
      ≠ RustResult.err e) :=
  ⟨rfl, rfl, rfl, rfl, fun _ hcontra => RustResult.noConfusion hcontra⟩

/-! ### The mock connector (src/mock.rs) -/

/-- `MockRequest` (src/mock.rs lines 17-24): a mocked request expectation
with its canned result.  `delay` is stored but never consulted by `request`. -/
structure MockRequest (Addr Req Resp Ctx E : Type) where
  «to» : Addr
  req : Req
  ctx : Option Ctx
  resp : Except E (Resp × Ctx)
  delay : Option Nat

/-- `MockResponse` (src/mock.rs lines 47-52): a mocked response
expectation. -/
structure MockResponse (Addr Resp Ctx E : Type) where
  «to» : Addr
  resp : Resp
  err : Option E
  ctx : Option Ctx

/-- `MockTransaction` (src/mock.rs lines 78-79): an expectation is either a
request expectation or a response expectation, reusing `Muxed`. -/
def MockTransaction (Addr Req Resp Ctx E : Type) : Type :=
  Muxed (MockRequest Addr Req Resp Ctx E) (MockResponse Addr Resp Ctx E)

/-- `MockConnector::request` (src/mock.rs lines 160-181): pop the front
expectation (`.expect(..)` panics when the queue is empty), extract a request
expectation (`.expect("expected request")` panics on a response expectation),
`assert_eq!` the destination, the request payload and — when the expectation
carries one — the context (each failed assertion panics), then return the
canned result.  The request-id argument `i` is received (`_id`) but never
examined.  Returns the outcome together with the remaining queue. -/
def MockConnector.request {Id Addr Req Resp Ctx E : Type}
    [DecidableEq Addr] [DecidableEq Req] [DecidableEq Ctx]
    (transactions : List (MockTransaction Addr Req Resp Ctx E))
    (ctx : Ctx) (_i : Id) (addr : Addr) (rq : Req) :
    RustResult E (Resp × Ctx) × List (MockTransaction Addr Req Resp Ctx E) :=
  match transactions with
  | [] => (RustResult.aborted, [])
  | t :: rest =>
    match Muxed.req t with
    | none => (RustResult.aborted, rest)
    | some mr =>
      if mr.«to» = addr then
        if mr.req = rq then
          match mr.ctx with
          | some mc =>
            if mc = ctx then
              (match mr.resp with
                | Except.ok r => (RustResult.ok r, rest)
                | Except.error e => (RustResult.err e, rest))
            else (RustResult.aborted, rest)
          | none =>
            (match mr.resp with
              | Except.ok r => (RustResult.ok r, rest)
              | Except.error e => (RustResult.err e, rest))
        else (RustResult.aborted, rest)
      else (RustResult.aborted, rest)

/-- `MockConnector::respond` (src/mock.rs lines 185-206): pop the front
expectation, extract a response expectation, `assert_eq!` the destination,
the response payload and optionally the context, then return the canned
error (if any).  The request-id argument `i` is received (`_id`) but never
examined. -/
def MockConnector.respond {Id Addr Req Resp Ctx E : Type}
    [DecidableEq Addr] [DecidableEq Resp] [DecidableEq Ctx]
    (transactions : List (MockTransaction Addr Req Resp Ctx E))
    (ctx : Ctx) (_i : Id) (addr : Addr) (rs : Resp) :
    RustResult E Unit × List (MockTransaction Addr Req Resp Ctx E) :=
  match transactions with
  | [] => (RustResult.aborted, [])
  | t :: rest =>
    match Muxed.resp t with
    | none => (RustResult.aborted, rest)
    | some mr =>
      if mr.«to» = addr then
        if mr.resp = rs then
          match mr.ctx with
          | some mc =>
            if mc = ctx then
              (match mr.err with
                | some e => (RustResult.err e, rest)
                | none => (RustResult.ok (), rest))
            else (RustResult.aborted, rest)
          | none =>
            (match mr.err with
              | some e => (RustResult.err e, rest)
              | none => (RustResult.ok (), rest))
        else (RustResult.aborted, rest)
      else (RustResult.aborted, rest)

/-- C10: `MockConnector::request` and `MockConnector::respond` never examine
the request-id argument: on the same expectation-queue state, two calls
differing only in the id produce identical outcomes (expectation consumed,
assertion verdict, canned result) — correlation ids are never checked by the
mock. -/
theorem mock_ignores_request_id {Id Addr Req Resp Ctx E : Type}
    [DecidableEq Addr] [DecidableEq Req] [DecidableEq Resp] [DecidableEq Ctx]
    (transactions : List (MockTransaction Addr Req Resp Ctx E))
    (ctx : Ctx) (i₁ i₂ : Id) (addr : Addr) (rq : Req) (rs : Resp) :
    MockConnector.request transactions ctx i₁ addr rq
      = MockConnector.request transactions ctx i₂ addr rq ∧
    MockConnector.respond transactions ctx i₁ addr rs
      = MockConnector.respond transactions ctx i₂ addr rs :=
  ⟨rfl, rfl⟩
